import Mathlib

/-!
Shallow embedding of src/main.py of the mapper-agent repository.

The program orchestrates a set of external agent processes: it clones and
provisions repositories (`clone_repo_if_needed`, `install_dependencies`),
runs each agent under a polling supervisor with timeout and cancellation
(`run_agent`), collates each successful agent's declared output file into a
shared output directory, and finally assembles a report mapping agent name
to collected artifact path (`main`).

Stateful and effectful parts of the Python code are embedded as explicit
state passing: the file system is a pair of maps (files to byte contents,
directories to existence), the nondeterminism of the poll loop (interrupt
flag, process exit, elapsed wall-clock time, unexpected exceptions) is an
explicit list of tick observations, and every side effect performed on the
shared live-process set or on the spawned process is recorded in an ordered
action trace.  Fallible steps return values distinguishing normal return,
a propagated exception, and a process exit.
-/

set_option autoImplicit false

namespace Mapper

/-- Byte contents of a file, abstracted as a list of byte values. -/
abbrev Bytes := List Nat

/-- Whether the string s starts with the string pre (str.startswith),
stated on the character lists so that it evaluates by reduction. -/
def strStartsWith (s pre : String) : Bool := List.isPrefixOf pre.data s.data

/-- Whether the string s ends with the string suf (str.endswith), stated on
the reversed character lists so that it evaluates by reduction. -/
def strEndsWith (s suf : String) : Bool :=
  List.isPrefixOf suf.data.reverse s.data.reverse

/-- Model of os.path.join on two components: an absolute second component
replaces the first (as in Python), otherwise the two are joined with a
single separator. -/
def pathJoin (a b : String) : String :=
  if strStartsWith b "/" then b
  else if a = "" then b
  else if strEndsWith a "/" then a ++ b
  else a ++ "/" ++ b

/-- Model of os.path.abspath relative to the process current working
directory (normalization of dot segments is not modelled; no claim depends
on it). -/
def abspath (cwdA p : String) : String :=
  if strStartsWith p "/" then p else pathJoin cwdA p

/-- A POSIX path is absolute exactly when it starts with the separator. -/
def isAbsolutePath (p : String) : Bool := strStartsWith p "/"

/-- One agent record of config.json.  Every field is optional: the Python
code reads most of them with dict.get, and `script` — which main never
guards — is read with a plain subscript at src/main.py line 96, raising
KeyError when the key is missing. -/
structure Agent where
  name : Option String
  path : Option String
  script : Option String
  scriptOutput : Option String
  output : Option String
  repo : Option String
deriving DecidableEq

/-- Python truthiness test for an optional string: a missing key or an
empty string is falsy (`if not agent.get(k)`). -/
def strFalsy : Option String → Bool
  | none => true
  | some s => s == ""

/-- The guard main applies in all three of its loops:
`if not agent.get('name') or not agent.get('path'): continue`. -/
def eligible (a : Agent) : Bool := !(strFalsy a.name) && !(strFalsy a.path)

/-- The key under which an agent is stored in `futures` and in the report:
its name (eligible agents always have one). -/
def agentKey (a : Agent) : String := a.name.getD ""

/-- Abstract file system state: byte contents per file path and existence
per directory path. -/
structure FS where
  files : String → Option Bytes
  dirs : String → Bool

/-- Model of os.makedirs(d, exist_ok=True): marks the directory as existing
(intermediate components are not tracked; no claim inspects them). -/
def FS.mkdirs (fs : FS) (d : String) : FS :=
  { fs with dirs := fun p => if p = d then true else fs.dirs p }

/-- Model of shutil.copy2(src, dst): the destination now holds the bytes of
the source, overwriting any prior file at the destination. -/
def FS.copy2 (fs : FS) (src dst : String) : FS :=
  { fs with files := fun p => if p = dst then fs.files src else fs.files p }

/-- Observation made by one iteration of run_agent's poll loop: whether some
call in the iteration raises an unexpected exception, whether the stop
event is set, the result of process.poll(), and the elapsed wall-clock
seconds since spawn. -/
structure Tick where
  exc : Bool
  stopSet : Bool
  pollRet : Option Int
  elapsed : Nat
deriving DecidableEq

/-- How run_agent's poll loop ends. -/
inductive LoopExit where
  | stopped
  | exited (code : Int)
  | timedOut
  | raised
deriving DecidableEq

/-- The `while True` poll loop of run_agent (src/main.py lines 127-154):
each iteration checks the stop event first, then process.poll(), then the
120-second timeout, and otherwise sleeps and loops.  Returns none when the
supplied observation trace runs out before the loop terminates. -/
def pollLoop : List Tick → Option LoopExit
  | [] => none
  | t :: ts =>
    if t.exc then some LoopExit.raised
    else if t.stopSet then some LoopExit.stopped
    else
      match t.pollRet with
      | some c => some (LoopExit.exited c)
      | none => if 120 < t.elapsed then some LoopExit.timedOut else pollLoop ts

/-- Side effects run_agent performs on the spawned process, the shared
live-process set, and the file system, in order. -/
inductive Act where
  | addProc
  | terminate
  | waitGrace (secs : Nat)
  | kill
  | removeProc
  | makedirs (d : String)
  | copy (src dst : String)
deriving DecidableEq

/-- Messages run_agent prints, abstracted to their kind. -/
inductive Log where
  | errDirMissing
  | errExc
  | errInterrupt
  | errTimeout
  | errNonZero (code : Int)
  | completed
  | warnNoScriptOutput
  | warnNoOutput
  | copied
  | warnSrcMissing
deriving DecidableEq

/-- Environment of one run_agent call: the process working directory, the
deepfenceai-layout test on it, whether the agent directory exists, whether
Popen succeeds, the poll-loop observations, exception flags for the reap
and collation phases, whether the terminated process exits within the
5-second grace wait, and the file system. -/
structure RunEnv where
  cwdAbs : String
  deepParent : Bool
  dirExists : Bool
  spawnOk : Bool
  ticks : List Tick
  commExc : Bool
  collateExc : Bool
  graceOk : Bool
  fs : FS

/-- Value of one run_agent call: the returned artifact path (None on every
failure path), the ordered action trace, the printed messages, and the
resulting file system. -/
structure RunOut where
  result : Option String
  acts : List Act
  logs : List Log
  fs : FS

/-- The output directory chosen by both run_agent and main
(src/main.py lines 179-182 and 223-227). -/
def outputDirFor (deep : Bool) : String :=
  if deep then "../../outputs/mapper-agent" else "output"

/-- The graceful-then-forceful termination escalation
(src/main.py lines 129-133 and 144-148): terminate, wait up to 5 seconds,
and kill only if the process is still alive after the grace wait. -/
def termActs (graceOk : Bool) : List Act :=
  Act.terminate :: Act.waitGrace 5 :: (if graceOk then [] else [Act.kill])

/-- The command string run_agent builds (src/main.py lines 99-109): when a
truthy param is given it is made absolute — through '../..' in the
deepfenceai layout — and appended to the script. -/
def buildScriptCmd (script : String) (param : Option String) (deep : Bool)
    (cwdA : String) : String :=
  if strFalsy param then script
  else
    let p := param.getD ""
    let pAbs := if deep then abspath cwdA (pathJoin "../.." p) else abspath cwdA p
    script ++ " " ++ pAbs

/-- How one run_agent call ends when it ends at all: by letting an
exception escape the function (the KeyError from the unguarded
`agent['script']` subscript at src/main.py line 96, raised before the
try block), or by returning a RunOut value. -/
inductive PyRet where
  | raised
  | ret (o : RunOut)

/-- The value main's collection loop obtains from a call outcome: the
returned artifact path for a call that returned, nothing otherwise. -/
def PyRet.result : PyRet → Option String
  | PyRet.raised => none
  | PyRet.ret o => o.result

/-- Shallow embedding of run_agent (src/main.py lines 92-200).  The
function first reads agent['script'] with a plain subscript (line 96),
which raises KeyError — before the try block at line 120 — when the key is
missing; that path is PyRet.raised.  (The name and path subscripts at
lines 95 and 97 are read with getD here: main submits only agents whose
.get checks on name and path passed, so for every call main makes those
keys are present; script has no such guard.)  Then, in order: missing
agent directory; Popen raising (the handle was never added, and the
handler's `process in locals()` test fails); the poll loop ending by an
unexpected exception (handler discards the handle, still registered), by
the stop event or the timeout (terminate/grace/kill escalation, then
discard), or by process exit (discard, then communicate and the
return-code check, then collation of the declared output file).  The
command string built by buildScriptCmd is what Popen receives; since the
child process's behavior is abstracted by the tick observations, the
command's text cannot influence anything else in the model.  Returns none
only when the tick trace is too short to end the loop, i.e. the call has
not returned. -/
def run_agent (a : Agent) (param : Option String) (env : RunEnv) : Option PyRet :=
  match a.script with
  | none => some PyRet.raised
  | some _ =>
    if env.dirExists = false then
      some (PyRet.ret
        { result := none, acts := [], logs := [Log.errDirMissing], fs := env.fs })
    else if env.spawnOk = false then
      some (PyRet.ret
        { result := none, acts := [], logs := [Log.errExc], fs := env.fs })
    else
      match pollLoop env.ticks with
      | none => none
      | some LoopExit.raised =>
        some (PyRet.ret
          { result := none, acts := [Act.addProc, Act.removeProc],
            logs := [Log.errExc], fs := env.fs })
      | some LoopExit.stopped =>
        some (PyRet.ret
          { result := none,
            acts := Act.addProc :: termActs env.graceOk ++ [Act.removeProc],
            logs := [Log.errInterrupt], fs := env.fs })
      | some LoopExit.timedOut =>
        some (PyRet.ret
          { result := none,
            acts := Act.addProc :: termActs env.graceOk ++ [Act.removeProc],
            logs := [Log.errTimeout], fs := env.fs })
      | some (LoopExit.exited code) =>
        if env.commExc then
          some (PyRet.ret
            { result := none, acts := [Act.addProc, Act.removeProc],
              logs := [Log.errExc], fs := env.fs })
        else if code ≠ 0 then
          some (PyRet.ret
            { result := none, acts := [Act.addProc, Act.removeProc],
              logs := [Log.errNonZero code], fs := env.fs })
        else if strFalsy a.scriptOutput then
          some (PyRet.ret
            { result := none, acts := [Act.addProc, Act.removeProc],
              logs := [Log.completed, Log.warnNoScriptOutput], fs := env.fs })
        else if strFalsy a.output then
          some (PyRet.ret
            { result := none, acts := [Act.addProc, Act.removeProc],
              logs := [Log.completed, Log.warnNoOutput], fs := env.fs })
        else
          let cwd := abspath env.cwdAbs (a.path.getD "")
          let outDir := outputDirFor env.deepParent
          let fs1 := env.fs.mkdirs outDir
          let src := pathJoin cwd (a.scriptOutput.getD "")
          let dst := pathJoin outDir (a.output.getD "")
          if env.collateExc then
            some (PyRet.ret
              { result := none,
                acts := [Act.addProc, Act.removeProc, Act.makedirs outDir],
                logs := [Log.completed, Log.errExc], fs := fs1 })
          else if (fs1.files src).isSome then
            some (PyRet.ret
              { result := some dst,
                acts := [Act.addProc, Act.removeProc, Act.makedirs outDir,
                  Act.copy src dst],
                logs := [Log.completed, Log.copied], fs := fs1.copy2 src dst })
          else
            some (PyRet.ret
              { result := none,
                acts := [Act.addProc, Act.removeProc, Act.makedirs outDir],
                logs := [Log.completed, Log.warnSrcMissing], fs := fs1 })

/-- Whether the run_agent call for this record raises KeyError at the
`agent['script']` subscript (before the try block), so that the stored
future re-raises instead of yielding a value. -/
def runAgentKeyError (a : Agent) : Bool := a.script.isNone

/-- Action trace of one run_agent call, when the call returns a value. -/
def runActs (a : Agent) (param : Option String) (env : RunEnv) : Option (List Act) :=
  match run_agent a param env with
  | some (PyRet.ret o) => some o.acts
  | _ => none

/-- Returned value of one run_agent call, when the call returns a value. -/
def runResult (a : Agent) (param : Option String) (env : RunEnv) : Option (Option String) :=
  match run_agent a param env with
  | some (PyRet.ret o) => some o.result
  | _ => none

/-- Printed messages of one run_agent call, when the call returns a value. -/
def runLogs (a : Agent) (param : Option String) (env : RunEnv) : Option (List Log) :=
  match run_agent a param env with
  | some (PyRet.ret o) => some o.logs
  | _ => none

/-! ### The orchestrator: main's futures dict and report dict -/

/-- Python dict assignment d[k] = v on an insertion-ordered association
list: replaces the value of an existing key in place, otherwise appends the
new pair at the end. -/
def dictSet {α : Type} (d : List (String × α)) (k : String) (v : α) :
    List (String × α) :=
  if d.any (fun p => p.1 == k) then
    d.map (fun p => if p.1 = k then (k, v) else p)
  else d ++ [(k, v)]

/-- Python dict lookup d[k] on an insertion-ordered association list. -/
def dlookup {α : Type} (d : List (String × α)) (k : String) : Option α :=
  match d.find? (fun p => p.1 == k) with
  | some p => some p.2
  | none => none

/-- The submission loop of main (src/main.py lines 236-241): for each
eligible agent, the submitted run is stored in futures under the name.
The dict value records which agent was submitted under that name. -/
def buildFutures : List Agent → List (String × Agent) → List (String × Agent)
  | [], d => d
  | a :: rest, d =>
    buildFutures rest (if eligible a then dictSet d (agentKey a) a else d)

/-- The collection loop of main (src/main.py lines 243-249): for each
eligible agent, read `futures[name].result()` and, when it is not None,
store it in report_data under the name.  `results` gives the value each
submitted run_agent call returns.  The inner none branch of the futures
lookup is unreachable: the futures dict was built from the same filtered
list, so every eligible name is present. -/
def collectReport : List Agent → List (String × Agent) → (Agent → Option String) →
    List (String × String) → List (String × String)
  | [], _, _, rd => rd
  | a :: rest, fut, results, rd =>
    if eligible a then
      match dlookup fut (agentKey a) with
      | some ag =>
        match results ag with
        | some v => collectReport rest fut results (dictSet rd (agentKey a) v)
        | none => collectReport rest fut results rd
      | none => collectReport rest fut results rd
    else collectReport rest fut results rd

/-- The report_data dict that main writes to report.json, as a function of
the configured agents and of each submitted run's returned value. -/
def mainReport (agents : List Agent) (results : Agent → Option String) :
    List (String × String) :=
  collectReport agents (buildFutures agents []) results []

/-- How main's collection-and-write phase ends: with report.json written
holding the collected dict, or aborted by an exception that
`futures[name].result()` re-raised — main's surrounding try (src/main.py
line 234) catches only KeyboardInterrupt, so any other exception escapes
main and the report write at line 252 is never reached. -/
inductive MainOutcome where
  | wrote (rd : List (String × String))
  | aborted
deriving DecidableEq

/-- The collection loop of main with exception propagation: identical to
collectReport, except that when the looked-up future's run_agent call
raised (KeyError from a missing script key), result() re-raises and the
whole phase aborts before report.json is written. -/
def collectOrAbort : List Agent → List (String × Agent) → (Agent → Option String) →
    List (String × String) → MainOutcome
  | [], _, _, rd => MainOutcome.wrote rd
  | a :: rest, fut, results, rd =>
    if eligible a then
      match dlookup fut (agentKey a) with
      | some ag =>
        if runAgentKeyError ag then MainOutcome.aborted
        else
          match results ag with
          | some v => collectOrAbort rest fut results (dictSet rd (agentKey a) v)
          | none => collectOrAbort rest fut results rd
      | none => collectOrAbort rest fut results rd
    else collectOrAbort rest fut results rd

/-- Main's collection-and-write phase as a whole: either report.json is
written with the collected dict, or an exception re-raised from a future
aborts the run before the write. -/
def mainRun (agents : List Agent) (results : Agent → Option String) : MainOutcome :=
  collectOrAbort agents (buildFutures agents []) results []

/-- The agents main's clone loop passes to clone_repo_if_needed
(src/main.py lines 217-221): exactly the eligible ones. -/
def cloneCandidates (agents : List Agent) : List Agent :=
  agents.filter (fun a => eligible a)

/-- Names of the eligible agents, in configuration order. -/
def eligNames (agents : List Agent) : List String :=
  (agents.filter (fun a => eligible a)).map agentKey

/-- Name-uniqueness of the eligible agents: the contract the spec assumes
of the configuration (spec section 4.3). -/
abbrev EligNodup (agents : List Agent) : Prop := (eligNames agents).Nodup

/-! ### Provisioning: clone_repo_if_needed and install_dependencies -/

/-- Environment of one provisioning call: which dependency files exist in
the cloned tree, whether each external tool invocation succeeds, whether
the agent directory already exists, and whether the git version check and
the clone succeed. -/
structure ProvEnv where
  pathIsDir : Bool
  gitOk : Bool
  cloneOk : Bool
  uvLockExists : Bool
  uvAvailable : Bool
  uvSyncOk : Bool
  requirementsExists : Bool
  pipReqOk : Bool
  pyprojectExists : Bool
  pipEditableOk : Bool
  pipRegularOk : Bool
deriving DecidableEq

/-- How install_dependencies returns: normally, or by letting a
CalledProcessError escape to the caller. -/
inductive InstallOut where
  | done
  | raisedCPE
deriving DecidableEq

/-- Messages the provisioning functions print, abstracted to their kind. -/
inductive PLog where
  | uvInstalled
  | uvFallback
  | pipInstalled
  | pyprojectInstalled
  | pyprojectFailed
  | noDepFile
deriving DecidableEq

/-- The requirements.txt and pyproject.toml branches of install_dependencies
(src/main.py lines 37-61), reached directly or by the uv fallback.  The
`pip install -r requirements.txt` call runs with check=True and no
try/except, so its failure raises; both pyproject installs are wrapped in
try/except and a double failure is only logged. -/
def installFallbackPip (e : ProvEnv) (logs : List PLog) : InstallOut × List PLog :=
  if e.requirementsExists then
    if e.pipReqOk then (InstallOut.done, logs ++ [PLog.pipInstalled])
    else (InstallOut.raisedCPE, logs)
  else if e.pyprojectExists then
    if e.pipEditableOk then (InstallOut.done, logs ++ [PLog.pyprojectInstalled])
    else if e.pipRegularOk then (InstallOut.done, logs ++ [PLog.pyprojectInstalled])
    else (InstallOut.done, logs ++ [PLog.pyprojectFailed])
  else (InstallOut.done, logs ++ [PLog.noDepFile])

/-- Shallow embedding of install_dependencies (src/main.py lines 24-61).
The uv branch catches both CalledProcessError and FileNotFoundError from
the version check and from uv sync, printing the fallback message and
continuing with the pip branches. -/
def install_dependencies (e : ProvEnv) : InstallOut × List PLog :=
  if e.uvLockExists then
    if e.uvAvailable then
      if e.uvSyncOk then (InstallOut.done, [PLog.uvInstalled])
      else installFallbackPip e [PLog.uvFallback]
    else installFallbackPip e [PLog.uvFallback]
  else installFallbackPip e []

/-- How clone_repo_if_needed returns: without doing anything, after a
successful clone, or by terminating the whole process via sys.exit. -/
inductive CloneOut where
  | noop
  | cloned
  | exitProcess (code : Nat)
deriving DecidableEq

/-- Shallow embedding of clone_repo_if_needed (src/main.py lines 63-90).
A falsy repo or path, or an already existing directory, is a no-op.  A
failing git version check exits the process.  The try block spans the
clone and install_dependencies, and its except CalledProcessError handler
calls sys.exit(1) — so a CalledProcessError escaping install_dependencies
also terminates the process. -/
def clone_repo_if_needed (a : Agent) (e : ProvEnv) : CloneOut :=
  if strFalsy a.repo || strFalsy a.path then CloneOut.noop
  else if e.pathIsDir then CloneOut.noop
  else if e.gitOk = false then CloneOut.exitProcess 1
  else if e.cloneOk = false then CloneOut.exitProcess 1
  else
    match (install_dependencies e).1 with
    | InstallOut.done => CloneOut.cloned
    | InstallOut.raisedCPE => CloneOut.exitProcess 1

/-! ### The output-archiving step of main -/

/-- State main's archiving step reads and writes: the deepfenceai-layout
test on the current working directory, the directory listings (none for a
directory that does not exist), and the timestamp used in the archive
name. -/
structure ArchiveEnv where
  deep : Bool
  listing : String → Option (List String)
  timestamp : String

/-- The archive directory name f-string of src/main.py line 230. -/
def archiveName (ts : String) : String := "output_archive_" ++ ts

/-- The pre-submission archiving step of main (src/main.py lines 223-232):
in the deepfenceai layout nothing is archived; otherwise, when the output
directory exists and its listing is non-empty, the whole directory is
moved to the timestamped archive name. -/
def archiveStep (e : ArchiveEnv) : ArchiveEnv :=
  if e.deep then e
  else
    match e.listing "output" with
    | none => e
    | some l =>
      if l.isEmpty then e
      else
        { e with
          listing := fun p =>
            if p = "output" then none
            else if p = archiveName e.timestamp then some l
            else e.listing p }

/-! ### Concrete sample inputs used to instantiate the theorems -/

/-- A fully populated agent record. -/
def sAgent : Agent :=
  { name := some "alpha", path := some "alpha", script := some "python run.py",
    scriptOutput := some "res.json", output := some "map.json", repo := none }

/-- An agent record with no name: skipped by main. -/
def sNoName : Agent :=
  { name := none, path := some "beta", script := some "python run.py",
    scriptOutput := some "res.json", output := some "map.json", repo := none }

/-- A file system holding only the sample agent's declared output file. -/
def sFS : FS :=
  { files := fun p => if p = "/w/alpha/res.json" then some [7, 8] else none,
    dirs := fun _ => false }

/-- An environment in which the sample agent's process exits with code 0 on
the first poll. -/
def sEnvOk : RunEnv :=
  { cwdAbs := "/w", deepParent := false, dirExists := true, spawnOk := true,
    ticks := [{ exc := false, stopSet := false, pollRet := some 0, elapsed := 1 }],
    commExc := false, collateExc := false, graceOk := true, fs := sFS }

/-- An environment in which the process is still alive when the elapsed
time exceeds 120 seconds, and does not exit within the grace wait. -/
def sEnvTimeout : RunEnv :=
  { sEnvOk with
    ticks := [{ exc := false, stopSet := false, pollRet := none, elapsed := 121 }],
    graceOk := false }

/-- The run_agent results of the sample success environment, as main's
collection loop observes them for calls that returned a value. -/
def sResults : Agent → Option String :=
  fun b =>
    match run_agent b (some "data") sEnvOk with
    | some (PyRet.ret o) => o.result
    | _ => none

/-- An eligible agent record that lacks the script key: main submits it,
its run_agent call raises KeyError before the try block, and main's
collection loop re-raises it. -/
def sNoScript : Agent :=
  { name := some "gamma", path := some "gamma", script := none,
    scriptOutput := some "res.json", output := some "map.json", repo := none }

/-- A provisioning environment in which the clone succeeds and the
pip install of requirements.txt exits non-zero. -/
def sProvReqFail : ProvEnv :=
  { pathIsDir := false, gitOk := true, cloneOk := true,
    uvLockExists := false, uvAvailable := false, uvSyncOk := false,
    requirementsExists := true, pipReqOk := false,
    pyprojectExists := false, pipEditableOk := false, pipRegularOk := false }

/-- A provisioning environment in which the clone succeeds and both
pyproject.toml installs exit non-zero. -/
def sProvPyFail : ProvEnv :=
  { sProvReqFail with
    requirementsExists := false,
    pyprojectExists := true }

/-- The sample agent with a repository URL, as the clone loop sees it. -/
def sAgentRepo : Agent := { sAgent with repo := some "https://example.com/a.git" }

/-- An archive environment in standard mode with a non-empty prior output
directory. -/
def sArchiveEnv : ArchiveEnv :=
  { deep := false,
    listing := fun p => if p = "output" then some ["old.json"] else none,
    timestamp := "20261012_090000" }

/-! ### Dictionary lemmas -/

/-- Membership in a dict after an assignment: the pair was already present,
or it is the assigned pair. -/
theorem dictSet_mem {α : Type} {d : List (String × α)} {k : String} {v : α}
    {p : String × α} (h : p ∈ dictSet d k v) : p ∈ d ∨ p = (k, v) := by
  unfold dictSet at h
  by_cases hany : d.any (fun q => q.1 == k) = true
  · rw [if_pos hany] at h
    rcases List.mem_map.mp h with ⟨q, hq, hfq⟩
    by_cases hk : q.1 = k
    · right
      rw [if_pos hk] at hfq
      exact hfq.symm
    · left
      rw [if_neg hk] at hfq
      exact hfq ▸ hq
  · rw [if_neg hany] at h
    rcases List.mem_append.mp h with hd | hs
    · exact Or.inl hd
    · exact Or.inr (List.mem_singleton.mp hs)

/-- Assigning a key not yet present appends the pair at the end. -/
theorem dictSet_fresh {α : Type} {d : List (String × α)} {k : String} (v : α)
    (h : ∀ p ∈ d, p.1 ≠ k) : dictSet d k v = d ++ [(k, v)] := by
  have hany : d.any (fun q => q.1 == k) = false := by
    simp only [List.any_eq_false]
    intro q hq
    simpa using h q hq
  simp [dictSet, hany]

/-- Every entry of the futures dict beyond the starting accumulator is an
eligible agent of the configuration, stored under its own name. -/
theorem buildFutures_mem :
    ∀ (agents : List Agent) (d : List (String × Agent)) (p : String × Agent),
      p ∈ buildFutures agents d →
      p ∈ d ∨ (p.2 ∈ agents ∧ eligible p.2 = true ∧ p.1 = agentKey p.2)
  | [], d, p, h => Or.inl h
  | a :: rest, d, p, h => by
    unfold buildFutures at h
    by_cases he : eligible a
    · rw [if_pos he] at h
      rcases buildFutures_mem rest _ p h with hd | ⟨hm, hel, hk⟩
      · rcases dictSet_mem hd with hd2 | hp
        · exact Or.inl hd2
        · subst hp
          exact Or.inr ⟨List.mem_cons_self a rest, he, rfl⟩
      · exact Or.inr ⟨List.mem_cons_of_mem a hm, hel, hk⟩
    · rw [if_neg he] at h
      rcases buildFutures_mem rest d p h with hd | ⟨hm, hel, hk⟩
      · exact Or.inl hd
      · exact Or.inr ⟨List.mem_cons_of_mem a hm, hel, hk⟩

/-- With name-unique eligible agents whose names are fresh for the starting
accumulator, building the futures dict appends one entry per eligible agent
in order. -/
theorem buildFutures_eq :
    ∀ (agents : List Agent) (d : List (String × Agent)),
      (eligNames agents).Nodup →
      (∀ p ∈ d, ∀ a ∈ agents, eligible a = true → p.1 ≠ agentKey a) →
      buildFutures agents d =
        d ++ (agents.filter (fun a => eligible a)).map (fun a => (agentKey a, a))
  | [], d, _, _ => by simp [buildFutures]
  | a :: rest, d, hnd, hfresh => by
    unfold buildFutures
    by_cases he : eligible a
    · rw [if_pos he]
      have hfilter : (a :: rest).filter (fun b => eligible b) =
          a :: rest.filter (fun b => eligible b) := List.filter_cons_of_pos he
      have hnames : eligNames (a :: rest) =
          agentKey a :: eligNames rest := by
        unfold eligNames
        rw [hfilter, List.map_cons]
      rw [hnames] at hnd
      have hka : agentKey a ∉ eligNames rest := (List.nodup_cons.mp hnd).1
      have hset : dictSet d (agentKey a) a = d ++ [(agentKey a, a)] :=
        dictSet_fresh a (fun p hp => hfresh p hp a (List.mem_cons_self a rest) he)
      rw [hset]
      have hrec := buildFutures_eq rest (d ++ [(agentKey a, a)])
        (List.nodup_cons.mp hnd).2 ?_
      · rw [hrec, hfilter, List.map_cons, List.append_assoc]
        simp
      · intro p hp b hb heb
        rcases List.mem_append.mp hp with hpd | hps
        · exact hfresh p hpd b (List.mem_cons_of_mem a hb) heb
        · have hp1 : p.1 = agentKey a := by
            rcases List.mem_singleton.mp hps with rfl
            rfl
          rw [hp1]
          intro hcontra
          apply hka
          rw [hcontra]
          unfold eligNames
          exact List.mem_map_of_mem agentKey (List.mem_filter.mpr ⟨hb, heb⟩)
    · rw [if_neg he]
      have hfilter : (a :: rest).filter (fun b => eligible b) =
          rest.filter (fun b => eligible b) := List.filter_cons_of_neg (by simpa using he)
      have hnames : eligNames (a :: rest) = eligNames rest := by
        unfold eligNames
        rw [hfilter]
      rw [hnames] at hnd
      rw [buildFutures_eq rest d hnd
        (fun p hp b hb heb => hfresh p hp b (List.mem_cons_of_mem a hb) heb), hfilter]

/-- Looking up an agent's name in the futures dict built from a
name-unique agent list yields that agent. -/
theorem dlookup_map_self :
    ∀ (l : List Agent), (l.map agentKey).Nodup → ∀ a ∈ l,
      dlookup (l.map (fun b => (agentKey b, b))) (agentKey a) = some a
  | [], _, a, ha => absurd ha (List.not_mem_nil a)
  | b :: rest, hnd, a, ha => by
    rw [List.map_cons]
    unfold dlookup
    rcases List.mem_cons.mp ha with rfl | hmem
    · rw [List.find?_cons_of_pos _ (by simp)]
    · have hne : agentKey b ≠ agentKey a := by
        intro hcontra
        exact (List.nodup_cons.mp (by simpa using hnd)).1
          (hcontra ▸ List.mem_map_of_mem agentKey hmem)
      rw [List.find?_cons_of_neg _ (by simpa using hne)]
      have hrec := dlookup_map_self rest (List.nodup_cons.mp (by simpa using hnd)).2 a hmem
      unfold dlookup at hrec
      exact hrec

/-- Every key of the report beyond the starting accumulator is the name of
an eligible agent of the configuration. -/
theorem collectReport_mem :
    ∀ (agents : List Agent) (fut : List (String × Agent))
      (results : Agent → Option String) (rd : List (String × String))
      (n v : String),
      (n, v) ∈ collectReport agents fut results rd →
      (n, v) ∈ rd ∨ ∃ a, a ∈ agents ∧ eligible a = true ∧ n = agentKey a
  | [], _, _, rd, n, v, h => Or.inl h
  | a :: rest, fut, results, rd, n, v, h => by
    unfold collectReport at h
    have hstep : ∀ rd2 : List (String × String),
        (n, v) ∈ collectReport rest fut results rd2 →
        ((n, v) ∈ rd2 ∨ ∃ b, b ∈ rest ∧ eligible b = true ∧ n = agentKey b) :=
      fun rd2 h2 => collectReport_mem rest fut results rd2 n v h2
    have hlift : ((n, v) ∈ rd ∨ ∃ b, b ∈ rest ∧ eligible b = true ∧ n = agentKey b) →
        ((n, v) ∈ rd ∨ ∃ b, b ∈ a :: rest ∧ eligible b = true ∧ n = agentKey b) := by
      rintro (hrd | ⟨b, hb, heb, hnb⟩)
      · exact Or.inl hrd
      · exact Or.inr ⟨b, List.mem_cons_of_mem a hb, heb, hnb⟩
    by_cases he : eligible a = true
    · rw [if_pos he] at h
      split at h
      · split at h
        · rcases hstep _ h with hrd | ⟨b, hb, heb, hnb⟩
          · rcases dictSet_mem hrd with hrd2 | hp
            · exact Or.inl hrd2
            · exact Or.inr ⟨a, List.mem_cons_self a rest, he,
                congrArg Prod.fst hp⟩
          · exact Or.inr ⟨b, List.mem_cons_of_mem a hb, heb, hnb⟩
        · exact hlift (hstep rd h)
      · exact hlift (hstep rd h)
    · rw [if_neg he] at h
      exact hlift (hstep rd h)

/-- With name-unique eligible agents, a futures dict resolving every
eligible name to its own agent, and a starting accumulator whose keys avoid
the eligible names, the collection loop appends exactly the entries of the
agents whose run returned a value. -/
theorem collectReport_eq :
    ∀ (agents : List Agent) (fut : List (String × Agent))
      (results : Agent → Option String) (rd : List (String × String)),
      (eligNames agents).Nodup →
      (∀ a ∈ agents, eligible a = true → dlookup fut (agentKey a) = some a) →
      (∀ p ∈ rd, ∀ a ∈ agents, eligible a = true → p.1 ≠ agentKey a) →
      collectReport agents fut results rd =
        rd ++ (agents.filter (fun a => eligible a)).filterMap
          (fun a => (results a).map (fun v => (agentKey a, v)))
  | [], _, _, rd, _, _, _ => by simp [collectReport]
  | a :: rest, fut, results, rd, hnd, hfut, hfresh => by
    unfold collectReport
    by_cases he : eligible a = true
    · rw [if_pos he]
      have hfilter : (a :: rest).filter (fun b => eligible b) =
          a :: rest.filter (fun b => eligible b) := List.filter_cons_of_pos he
      have hnames : eligNames (a :: rest) = agentKey a :: eligNames rest := by
        unfold eligNames
        rw [hfilter, List.map_cons]
      rw [hnames] at hnd
      have hka : agentKey a ∉ eligNames rest := (List.nodup_cons.mp hnd).1
      have hndrest := (List.nodup_cons.mp hnd).2
      have hfutrest : ∀ b ∈ rest, eligible b = true →
          dlookup fut (agentKey b) = some b :=
        fun b hb heb => hfut b (List.mem_cons_of_mem a hb) heb
      split
      · next ag heq =>
        have hag : ag = a := by
          rw [hfut a (List.mem_cons_self a rest) he] at heq
          exact (Option.some.inj heq).symm
        subst hag
        split
        · next v hres =>
          have hset : dictSet rd (agentKey ag) v = rd ++ [(agentKey ag, v)] :=
            dictSet_fresh v (fun p hp => hfresh p hp ag (List.mem_cons_self ag rest) he)
          rw [hset, collectReport_eq rest fut results _ hndrest hfutrest ?_]
          · rw [hfilter, List.filterMap_cons]
            simp [hres, List.append_assoc]
          · intro p hp b hb heb
            rcases List.mem_append.mp hp with hpd | hps
            · exact hfresh p hpd b (List.mem_cons_of_mem ag hb) heb
            · have hp1 : p.1 = agentKey ag := by
                rcases List.mem_singleton.mp hps with rfl
                rfl
              rw [hp1]
              intro hcontra
              apply hka
              rw [hcontra]
              unfold eligNames
              exact List.mem_map_of_mem agentKey (List.mem_filter.mpr ⟨hb, heb⟩)
        · next hres =>
          rw [collectReport_eq rest fut results rd hndrest hfutrest
            (fun p hp b hb heb => hfresh p hp b (List.mem_cons_of_mem ag hb) heb)]
          rw [hfilter, List.filterMap_cons]
          simp [hres]
      · next heq =>
        rw [hfut a (List.mem_cons_self a rest) he] at heq
        exact absurd heq (by simp)
    · rw [if_neg he]
      have hfilter : (a :: rest).filter (fun b => eligible b) =
          rest.filter (fun b => eligible b) := List.filter_cons_of_neg (by simpa using he)
      have hnames : eligNames (a :: rest) = eligNames rest := by
        unfold eligNames
        rw [hfilter]
      rw [hnames] at hnd
      rw [collectReport_eq rest fut results rd hnd
        (fun b hb heb => hfut b (List.mem_cons_of_mem a hb) heb)
        (fun p hp b hb heb => hfresh p hp b (List.mem_cons_of_mem a hb) heb), hfilter]

/-- With name-unique eligible agents the final report is exactly one entry
per eligible agent whose run returned a value, in configuration order. -/
theorem mainReport_eq (agents : List Agent) (results : Agent → Option String)
    (h : EligNodup agents) :
    mainReport agents results =
      (agents.filter (fun a => eligible a)).filterMap
        (fun a => (results a).map (fun v => (agentKey a, v))) := by
  unfold mainReport
  have hbf := buildFutures_eq agents [] h (by simp)
  rw [hbf, List.nil_append]
  rw [collectReport_eq agents _ results [] h ?_ (by simp)]
  · rw [List.nil_append]
  · intro a ha he
    exact dlookup_map_self (agents.filter (fun b => eligible b)) h a
      (List.mem_filter.mpr ⟨ha, he⟩)

/-- Characterization of report membership for name-unique configurations:
an entry is present exactly when some eligible agent of that name had its
run return that value. -/
theorem mainReport_mem_iff (agents : List Agent) (results : Agent → Option String)
    (h : EligNodup agents) (n v : String) :
    (n, v) ∈ mainReport agents results ↔
      ∃ a, a ∈ agents ∧ eligible a = true ∧ agentKey a = n ∧ results a = some v := by
  rw [mainReport_eq agents results h]
  constructor
  · intro hm
    rcases List.mem_filterMap.mp hm with ⟨a, ha, hfa⟩
    rcases Option.map_eq_some'.mp hfa with ⟨w, hw, hpair⟩
    have hn : agentKey a = n := congrArg Prod.fst hpair
    have hv : w = v := congrArg Prod.snd hpair
    exact ⟨a, (List.mem_filter.mp ha).1, (List.mem_filter.mp ha).2, hn, hv ▸ hw⟩
  · rintro ⟨a, ha, he, rfl, hres⟩
    exact List.mem_filterMap.mpr
      ⟨a, List.mem_filter.mpr ⟨ha, he⟩, by rw [hres]; rfl⟩

/-- In a name-unique configuration, two distinct eligible agents have
distinct names, so report facts about one agent depend only on its own
run. -/
theorem eligNodup_inj (agents : List Agent) (h : EligNodup agents)
    {a b : Agent} (ha : a ∈ agents) (hea : eligible a = true)
    (hb : b ∈ agents) (heb : eligible b = true)
    (hk : agentKey a = agentKey b) : a = b := by
  have := List.inj_on_of_nodup_map (f := agentKey)
    (l := agents.filter (fun x => eligible x)) h
  exact this (List.mem_filter.mpr ⟨ha, hea⟩) (List.mem_filter.mpr ⟨hb, heb⟩) hk

/-- An eligible agent whose run returned None never appears in the report
of a name-unique configuration. -/
theorem mainReport_not_mem (agents : List Agent) (results : Agent → Option String)
    (h : EligNodup agents) {a : Agent} (ha : a ∈ agents)
    (hea : eligible a = true) (hres : results a = none) (v : String) :
    (agentKey a, v) ∉ mainReport agents results := by
  intro hm
  rcases (mainReport_mem_iff agents results h (agentKey a) v).mp hm with
    ⟨b, hb, heb, hk, hresb⟩
  have hab : a = b := eligNodup_inj agents h ha hea hb heb hk.symm
  rw [← hab, hres] at hresb
  exact Option.noConfusion hresb

/-! ### Characterization lemmas for run_agent -/

/-- A non-falsy optional string is a present, non-empty string. -/
theorem strFalsy_false {o : Option String} (h : strFalsy o = false) :
    ∃ s, o = some s ∧ s ≠ "" ∧ o.getD "" = s := by
  cases o with
  | none => simp [strFalsy] at h
  | some s =>
    refine ⟨s, rfl, ?_, rfl⟩
    simpa [strFalsy] using h

/-- A Boolean that is not false is true. -/
theorem bool_true_of_not_false {b : Bool} (h : ¬ b = false) : b = true := by
  cases b
  · exact absurd rfl h
  · rfl

/-- A Boolean that is not true is false. -/
theorem bool_false_of_not_true {b : Bool} (h : ¬ b = true) : b = false := by
  cases b
  · rfl
  · exact absurd rfl h

/-- When run_agent returns without registering the spawned process in the
live-process set, it performs no removal either; when it registers the
process, it removes it exactly once, on every exit path. -/
theorem run_agent_count (a : Agent) (param : Option String) (env : RunEnv)
    (out : RunOut) (h : run_agent a param env = some (PyRet.ret out)) :
    (Act.addProc ∈ out.acts →
      out.acts.count Act.removeProc = 1 ∧ out.acts.count Act.addProc = 1) ∧
    (Act.addProc ∉ out.acts → out.acts.count Act.removeProc = 0) := by
  unfold run_agent at h
  split at h
  · exact PyRet.noConfusion (Option.some.inj h)
  · split at h
    · obtain rfl := PyRet.ret.inj (Option.some.inj h)
      simp
    · split at h
      · obtain rfl := PyRet.ret.inj (Option.some.inj h)
        simp
      · split at h
        · exact Option.noConfusion h
        · obtain rfl := PyRet.ret.inj (Option.some.inj h)
          simp [List.count_cons]
        · obtain rfl := PyRet.ret.inj (Option.some.inj h)
          cases hg : env.graceOk <;> simp [termActs, hg, List.count_cons]
        · obtain rfl := PyRet.ret.inj (Option.some.inj h)
          cases hg : env.graceOk <;> simp [termActs, hg, List.count_cons]
        · split at h
          · obtain rfl := PyRet.ret.inj (Option.some.inj h)
            simp [List.count_cons]
          · split at h
            · obtain rfl := PyRet.ret.inj (Option.some.inj h)
              simp [List.count_cons]
            · split at h
              · obtain rfl := PyRet.ret.inj (Option.some.inj h)
                simp [List.count_cons]
              · split at h
                · obtain rfl := PyRet.ret.inj (Option.some.inj h)
                  simp [List.count_cons]
                · split at h
                  · obtain rfl := PyRet.ret.inj (Option.some.inj h)
                    simp [List.count_cons]
                  · dsimp only at h
                    split at h
                    · obtain rfl := PyRet.ret.inj (Option.some.inj h)
                      simp [List.count_cons]
                    · obtain rfl := PyRet.ret.inj (Option.some.inj h)
                      simp [List.count_cons]

/-- run_agent fails to return only when the script key is present, the
agent directory exists, the spawn succeeds, and the poll-loop observation
trace is too short for the loop to terminate. -/
theorem run_agent_none (a : Agent) (param : Option String) (env : RunEnv)
    (h : run_agent a param env = none) :
    (∃ s, a.script = some s) ∧
    env.dirExists = true ∧ env.spawnOk = true ∧ pollLoop env.ticks = none := by
  unfold run_agent at h
  split at h
  · exact Option.noConfusion h
  · split at h
    · exact Option.noConfusion h
    · split at h
      · exact Option.noConfusion h
      · split at h
        · next heq =>
          rename_i s heqs hdir hspawn x
          exact ⟨⟨s, heqs⟩, bool_true_of_not_false hdir,
            bool_true_of_not_false hspawn, heq⟩
        · exact Option.noConfusion h
        · exact Option.noConfusion h
        · exact Option.noConfusion h
        · split at h
          · exact Option.noConfusion h
          · split at h
            · exact Option.noConfusion h
            · split at h
              · exact Option.noConfusion h
              · split at h
                · exact Option.noConfusion h
                · split at h
                  · exact Option.noConfusion h
                  · dsimp only at h
                    split at h
                    · exact Option.noConfusion h
                    · exact Option.noConfusion h

/-- run_agent raises (rather than returning or looping) exactly for the
KeyError of a missing script key at src/main.py line 96. -/
theorem run_agent_raised (a : Agent) (param : Option String) (env : RunEnv)
    (h : run_agent a param env = some PyRet.raised) : a.script = none := by
  unfold run_agent at h
  split at h
  · next heqs => exact heqs
  · split at h
    · exact PyRet.noConfusion (Option.some.inj h)
    · split at h
      · exact PyRet.noConfusion (Option.some.inj h)
      · split at h
        · exact Option.noConfusion h
        · exact PyRet.noConfusion (Option.some.inj h)
        · exact PyRet.noConfusion (Option.some.inj h)
        · exact PyRet.noConfusion (Option.some.inj h)
        · split at h
          · exact PyRet.noConfusion (Option.some.inj h)
          · split at h
            · exact PyRet.noConfusion (Option.some.inj h)
            · split at h
              · exact PyRet.noConfusion (Option.some.inj h)
              · split at h
                · exact PyRet.noConfusion (Option.some.inj h)
                · split at h
                  · exact PyRet.noConfusion (Option.some.inj h)
                  · dsimp only at h
                    split at h
                    · exact PyRet.noConfusion (Option.some.inj h)
                    · exact PyRet.noConfusion (Option.some.inj h)

/-- A defined action trace comes from a call that returned a value. -/
theorem runActs_eq_some {a : Agent} {param : Option String} {env : RunEnv}
    {acts : List Act} (h : runActs a param env = some acts) :
    ∃ out, run_agent a param env = some (PyRet.ret out) ∧ out.acts = acts := by
  unfold runActs at h
  split at h
  · next o heq => exact ⟨o, heq, Option.some.inj h⟩
  · exact Option.noConfusion h

/-- A defined returned value comes from a call that returned a value. -/
theorem runResult_eq_some {a : Agent} {param : Option String} {env : RunEnv}
    {r : Option String} (h : runResult a param env = some r) :
    ∃ out, run_agent a param env = some (PyRet.ret out) ∧ out.result = r := by
  unfold runResult at h
  split at h
  · next o heq => exact ⟨o, heq, Option.some.inj h⟩
  · exact Option.noConfusion h

/-- run_agent returns an artifact path only on the success path: the
process exited with code 0, reaping and collation raised no exception, the
agent declares a non-empty output name, the returned path is the join of
the output directory and that name, and the copy of the declared output
file to that path is in the action trace. -/
theorem run_agent_result_some (a : Agent) (param : Option String) (env : RunEnv)
    (out : RunOut) (v : String)
    (h : run_agent a param env = some (PyRet.ret out)) (hv : out.result = some v) :
    env.dirExists = true ∧ env.spawnOk = true ∧
    pollLoop env.ticks = some (LoopExit.exited 0) ∧
    env.commExc = false ∧ env.collateExc = false ∧
    ∃ outName, a.output = some outName ∧ outName ≠ "" ∧
      v = pathJoin (outputDirFor env.deepParent) outName ∧
      Act.copy (pathJoin (abspath env.cwdAbs (a.path.getD "")) (a.scriptOutput.getD "")) v
        ∈ out.acts := by
  unfold run_agent at h
  split at h
  · exact PyRet.noConfusion (Option.some.inj h)
  · split at h
    · obtain rfl := PyRet.ret.inj (Option.some.inj h)
      exact absurd hv (by simp)
    · split at h
      · obtain rfl := PyRet.ret.inj (Option.some.inj h)
        exact absurd hv (by simp)
      · split at h
        · exact Option.noConfusion h
        · obtain rfl := PyRet.ret.inj (Option.some.inj h)
          exact absurd hv (by simp)
        · obtain rfl := PyRet.ret.inj (Option.some.inj h)
          exact absurd hv (by simp)
        · obtain rfl := PyRet.ret.inj (Option.some.inj h)
          exact absurd hv (by simp)
        · split at h
          · obtain rfl := PyRet.ret.inj (Option.some.inj h)
            exact absurd hv (by simp)
          · split at h
            · obtain rfl := PyRet.ret.inj (Option.some.inj h)
              exact absurd hv (by simp)
            · split at h
              · obtain rfl := PyRet.ret.inj (Option.some.inj h)
                exact absurd hv (by simp)
              · split at h
                · obtain rfl := PyRet.ret.inj (Option.some.inj h)
                  exact absurd hv (by simp)
                · split at h
                  · obtain rfl := PyRet.ret.inj (Option.some.inj h)
                    exact absurd hv (by simp)
                  · dsimp only at h
                    split at h
                    · obtain rfl := PyRet.ret.inj (Option.some.inj h)
                      rename_i hdir hspawn x code heq hcomm hcode hso hout hcoll hsrc
                      have hv2 : v = pathJoin (outputDirFor env.deepParent) (a.output.getD "") :=
                        (Option.some.inj hv).symm
                      have hcode0 : code = 0 := not_ne_iff.mp hcode
                      rcases strFalsy_false (bool_false_of_not_true hout) with
                        ⟨outName, hsome, hne, hgetD⟩
                      refine ⟨bool_true_of_not_false hdir, bool_true_of_not_false hspawn,
                        by rw [← hcode0]; exact heq,
                        bool_false_of_not_true hcomm, bool_false_of_not_true hcoll,
                        outName, hsome, hne, by rw [hv2, hgetD], ?_⟩
                      rw [hv2]
                      simp
                    · obtain rfl := PyRet.ret.inj (Option.some.inj h)
                      exact absurd hv (by simp)

/-! ### Lemmas about the abort-aware collection phase -/

/-- A successful dict lookup returns a stored value. -/
theorem dlookup_mem {α : Type} {d : List (String × α)} {k : String} {v : α}
    (h : dlookup d k = some v) : ∃ k2, (k2, v) ∈ d := by
  unfold dlookup at h
  split at h
  · next p heq =>
    obtain rfl := Option.some.inj h
    exact ⟨p.1, by simpa using List.mem_of_find?_eq_some heq⟩
  · exact Option.noConfusion h

/-- In a name-unique configuration, the futures dict main builds resolves
every eligible name to its own agent. -/
theorem mainFut_lookup (agents : List Agent) (h : EligNodup agents) :
    ∀ a ∈ agents, eligible a = true →
      dlookup (buildFutures agents []) (agentKey a) = some a := by
  intro a ha he
  rw [buildFutures_eq agents [] h (by simp), List.nil_append]
  exact dlookup_map_self (agents.filter (fun b => eligible b)) h a
    (List.mem_filter.mpr ⟨ha, he⟩)

/-- When no stored future raises, the abort-aware collection loop writes
exactly the report the plain collection loop computes. -/
theorem collectOrAbort_eq :
    ∀ (agents : List Agent) (fut : List (String × Agent))
      (results : Agent → Option String) (rd : List (String × String)),
      (∀ p ∈ fut, runAgentKeyError p.2 = false) →
      collectOrAbort agents fut results rd =
        MainOutcome.wrote (collectReport agents fut results rd)
  | [], _, _, _, _ => rfl
  | a :: rest, fut, results, rd, hfut => by
    by_cases he : eligible a = true
    · cases hlk : dlookup fut (agentKey a) with
      | none =>
        simp only [collectOrAbort, collectReport, if_pos he, hlk]
        exact collectOrAbort_eq rest fut results rd hfut
      | some ag =>
        have hkey : runAgentKeyError ag = false := by
          rcases dlookup_mem hlk with ⟨k2, hmem⟩
          exact hfut (k2, ag) hmem
        cases hres : results ag with
        | some v =>
          simp [collectOrAbort, collectReport, if_pos he, hlk, hkey, hres]
          exact collectOrAbort_eq rest fut results _ hfut
        | none =>
          simp [collectOrAbort, collectReport, if_pos he, hlk, hkey, hres]
          exact collectOrAbort_eq rest fut results rd hfut
    · simp only [collectOrAbort, collectReport, if_neg he]
      exact collectOrAbort_eq rest fut results rd hfut

/-- When some eligible agent of a name-unique configuration lacks the
script key, the collection loop hits its re-raised KeyError and the run
aborts: report.json is never written. -/
theorem collectOrAbort_aborts :
    ∀ (agents : List Agent) (fut : List (String × Agent))
      (results : Agent → Option String) (rd : List (String × String)) (a : Agent),
      (∀ b ∈ agents, eligible b = true → dlookup fut (agentKey b) = some b) →
      a ∈ agents → eligible a = true → a.script = none →
      collectOrAbort agents fut results rd = MainOutcome.aborted
  | [], _, _, _, a, _, ha, _, _ => absurd ha (List.not_mem_nil a)
  | b :: rest, fut, results, rd, a, hfut, ha, hela, hscript => by
    by_cases heb : eligible b = true
    · have hlk : dlookup fut (agentKey b) = some b :=
        hfut b (List.mem_cons_self b rest) heb
      cases hkb : runAgentKeyError b with
      | true => simp [collectOrAbort, heb, hlk, hkb]
      | false =>
        have hab : a ∈ rest := by
          rcases List.mem_cons.mp ha with rfl | hmem
          · unfold runAgentKeyError at hkb
            rw [hscript] at hkb
            simp at hkb
          · exact hmem
        have hrec : ∀ rd2, collectOrAbort rest fut results rd2 = MainOutcome.aborted :=
          fun rd2 => collectOrAbort_aborts rest fut results rd2 a
            (fun c hc hec => hfut c (List.mem_cons_of_mem b hc) hec) hab hela hscript
        cases hres : results b with
        | some v => simp [collectOrAbort, heb, hlk, hkb, hres, hrec]
        | none => simp [collectOrAbort, heb, hlk, hkb, hres, hrec]
    · have hab : a ∈ rest := by
        rcases List.mem_cons.mp ha with rfl | hmem
        · exact absurd hela heb
        · exact hmem
      simp only [collectOrAbort, if_neg heb]
      exact collectOrAbort_aborts rest fut results rd a
        (fun c hc hec => hfut c (List.mem_cons_of_mem b hc) hec) hab hela hscript

/-! ### Helper lemma for the archive step -/

/-- The timestamped archive name is never the output directory itself. -/
theorem archiveName_ne_output (ts : String) : archiveName ts ≠ "output" := by
  intro h
  have hlen := congrArg String.length h
  rw [archiveName, String.length_append] at hlen
  have h15 : ("output_archive_" : String).length = 15 := rfl
  have h6 : ("output" : String).length = 6 := rfl
  rw [h15, h6] at hlen
  omega

/-! ### The claims -/

/-- C1: for every call to run_agent that spawns a child process and adds
its handle to the shared live-process set, the handle is removed from the
set exactly once before run_agent returns, on every exit path — normal
zero exit, non-zero exit, timeout, cancellation via the stop event, and
any caught exception during spawn or reap; and a call that never
registered the handle performs no removal. -/
theorem C1_live_set_exactly_once (a : Agent) (param : Option String)
    (env : RunEnv) (acts : List Act) (h : runActs a param env = some acts) :
    (Act.addProc ∈ acts →
      acts.count Act.removeProc = 1 ∧ acts.count Act.addProc = 1) ∧
    (Act.addProc ∉ acts → acts.count Act.removeProc = 0) := by
  rcases runActs_eq_some h with ⟨out, hout, hacts⟩
  rw [← hacts]
  exact run_agent_count a param env out hout

/-- Witness for C1 at a concrete successful run. -/
theorem C1_witness :
    (Act.addProc ∈ [Act.addProc, Act.removeProc, Act.makedirs "output",
        Act.copy "/w/alpha/res.json" "output/map.json"] →
      List.count Act.removeProc [Act.addProc, Act.removeProc, Act.makedirs "output",
        Act.copy "/w/alpha/res.json" "output/map.json"] = 1 ∧
      List.count Act.addProc [Act.addProc, Act.removeProc, Act.makedirs "output",
        Act.copy "/w/alpha/res.json" "output/map.json"] = 1) ∧
    (Act.addProc ∉ [Act.addProc, Act.removeProc, Act.makedirs "output",
        Act.copy "/w/alpha/res.json" "output/map.json"] →
      List.count Act.removeProc [Act.addProc, Act.removeProc, Act.makedirs "output",
        Act.copy "/w/alpha/res.json" "output/map.json"] = 0) :=
  C1_live_set_exactly_once sAgent (some "data") sEnvOk
    [Act.addProc, Act.removeProc, Act.makedirs "output",
      Act.copy "/w/alpha/res.json" "output/map.json"] (by decide)

/-- C2 counterexample: with a repository to clone, a successful clone, no
uv.lock, and a requirements.txt whose pip install exits non-zero, the
CalledProcessError escapes install_dependencies and clone_repo_if_needed
terminates the whole process with exit code 1 — the claim that a
dependency-install failure is only logged and never exits the process is
false on this input. -/
theorem C2_counterexample :
    sProvReqFail.cloneOk = true ∧
    install_dependencies sProvReqFail = (InstallOut.raisedCPE, []) ∧
    clone_repo_if_needed sAgentRepo sProvReqFail = CloneOut.exitProcess 1 := by
  refine ⟨rfl, ?_, ?_⟩ <;> rfl

/-- C2 (amended): after a successful clone, a pyproject.toml install
failure is only logged and the function returns normally (the agent is
still attempted), and a uv sync failure is logged and falls back to the
pip installers — but a requirements.txt install failure propagates as
CalledProcessError and terminates the whole process with exit code 1. -/
theorem C2_install_failure_paths (a : Agent) (e : ProvEnv)
    (hr : strFalsy a.repo = false) (hp : strFalsy a.path = false)
    (hd : e.pathIsDir = false) (hg : e.gitOk = true) (hc : e.cloneOk = true) :
    (e.uvLockExists = false → e.requirementsExists = false →
      e.pyprojectExists = true →
      clone_repo_if_needed a e = CloneOut.cloned ∧
      (e.pipEditableOk = false → e.pipRegularOk = false →
        PLog.pyprojectFailed ∈ (install_dependencies e).2)) ∧
    (e.uvLockExists = false → e.requirementsExists = true → e.pipReqOk = false →
      clone_repo_if_needed a e = CloneOut.exitProcess 1) ∧
    (e.uvLockExists = true → e.uvAvailable = true → e.uvSyncOk = false →
      PLog.uvFallback ∈ (install_dependencies e).2) := by
  refine ⟨?_, ?_, ?_⟩
  · intro hu h1 h2
    constructor
    · cases he1 : e.pipEditableOk <;> cases he2 : e.pipRegularOk <;>
        simp [clone_repo_if_needed, hr, hp, hd, hg, hc, install_dependencies,
          installFallbackPip, hu, h1, h2, he1, he2]
    · intro he1 he2
      simp [install_dependencies, installFallbackPip, hu, h1, h2, he1, he2]
  · intro hu h1 h2
    simp [clone_repo_if_needed, hr, hp, hd, hg, hc, install_dependencies,
      installFallbackPip, hu, h1, h2]
  · intro hu ha hsync
    cases hre : e.requirementsExists <;> cases hpy : e.pyprojectExists <;>
      cases hpo : e.pipReqOk <;> cases he1 : e.pipEditableOk <;>
      cases he2 : e.pipRegularOk <;>
      simp [install_dependencies, installFallbackPip, hu, ha, hsync,
        hre, hpy, hpo, he1, he2]

/-- Witness for C2's amended theorem: the pyproject path only logs, the
requirements path exits the process. -/
theorem C2_witness :
    clone_repo_if_needed sAgentRepo sProvPyFail = CloneOut.cloned ∧
    PLog.pyprojectFailed ∈ (install_dependencies sProvPyFail).2 ∧
    clone_repo_if_needed sAgentRepo sProvReqFail = CloneOut.exitProcess 1 := by
  have h1 := C2_install_failure_paths sAgentRepo sProvPyFail (by decide) (by decide)
    (by decide) (by decide) (by decide)
  have h2 := C2_install_failure_paths sAgentRepo sProvReqFail (by decide) (by decide)
    (by decide) (by decide) (by decide)
  rcases h1.1 (by decide) (by decide) (by decide) with ⟨ha, hb⟩
  exact ⟨ha, hb (by decide) (by decide), h2.2.1 (by decide) (by decide) (by decide)⟩

/-- C3 counterexample: a successful concrete run in the standard layout
produces a report whose value is the relative path output/map.json, not an
absolute filesystem path — the claim that every report value is absolute
is false on this input. -/
theorem C3_counterexample :
    mainReport [sAgent] sResults = [("alpha", "output/map.json")] ∧
    isAbsolutePath "output/map.json" = false := by
  refine ⟨?_, ?_⟩ <;> rfl

/-- C3 (amended): every value stored in the final report is the collation
destination path outputDir/canonicalOutputName of the matching agent — a
path relative to the orchestrator's working directory ('output/...' in the
standard layout), not necessarily an absolute path. -/
theorem C3_report_values_are_destinations (agents : List Agent)
    (param : Option String) (envs : Agent → RunEnv)
    (results : Agent → Option String) (hnd : EligNodup agents)
    (hres : ∀ b ∈ agents,
      results b = Option.bind (run_agent b param (envs b)) PyRet.result)
    (n v : String) (hm : (n, v) ∈ mainReport agents results) :
    ∃ b outName, b ∈ agents ∧ eligible b = true ∧ agentKey b = n ∧
      b.output = some outName ∧
      v = pathJoin (outputDirFor (envs b).deepParent) outName := by
  rcases (mainReport_mem_iff agents results hnd n v).mp hm with ⟨b, hb, heb, hk, hv⟩
  rw [hres b hb] at hv
  rcases Option.bind_eq_some.mp hv with ⟨pr, hout, hres2⟩
  cases pr with
  | raised => exact absurd hres2 (by simp [PyRet.result])
  | ret out =>
    rcases run_agent_result_some b param (envs b) out v hout hres2 with
      ⟨_, _, _, _, _, outName, hsome, _, hvp, _⟩
    exact ⟨b, outName, hb, heb, hk, hsome, hvp⟩

/-- Witness for C3's amended theorem at the concrete sample run. -/
theorem C3_witness :
    ∃ b outName, b ∈ [sAgent] ∧ eligible b = true ∧ agentKey b = "alpha" ∧
      b.output = some outName ∧
      "output/map.json" = pathJoin (outputDirFor (sEnvOk).deepParent) outName :=
  C3_report_values_are_destinations [sAgent] (some "data") (fun _ => sEnvOk)
    sResults (by decide) (by decide) "alpha" "output/map.json" (by decide)

/-- C4: an agent record missing a name or missing a path is excluded from
the clone loop, is never the value of any submitted future, and every
entry of the final report originates from an eligible agent — the
ineligible record is skipped without any error. -/
theorem C4_ineligible_skipped (agents : List Agent)
    (results : Agent → Option String) (a : Agent)
    (ha : a ∈ agents) (he : eligible a = false) :
    a ∉ cloneCandidates agents ∧
    (∀ p ∈ buildFutures agents ([] : List (String × Agent)), p.2 ≠ a) ∧
    (∀ n v, (n, v) ∈ mainReport agents results →
      ∃ b, b ∈ agents ∧ eligible b = true ∧ n = agentKey b) := by
  refine ⟨?_, ?_, ?_⟩
  · intro hmem
    have hcontra := (List.mem_filter.mp hmem).2
    rw [he] at hcontra
    exact Bool.noConfusion hcontra
  · intro p hp hpa
    rcases buildFutures_mem agents [] p hp with hnil | ⟨_, hel, _⟩
    · exact absurd hnil (List.not_mem_nil p)
    · rw [hpa, he] at hel
      exact Bool.noConfusion hel
  · intro n v hm
    rcases collectReport_mem agents _ results [] n v hm with hnil | hex
    · exact absurd hnil (List.not_mem_nil _)
    · exact hex

/-- Witness for C4 with a concrete config containing a nameless agent. -/
theorem C4_witness :
    sNoName ∉ cloneCandidates [sAgent, sNoName] ∧
    (∀ p ∈ buildFutures [sAgent, sNoName] ([] : List (String × Agent)), p.2 ≠ sNoName) ∧
    (∀ n v, (n, v) ∈ mainReport [sAgent, sNoName] sResults →
      ∃ b, b ∈ [sAgent, sNoName] ∧ eligible b = true ∧ n = agentKey b) :=
  C4_ineligible_skipped [sAgent, sNoName] sResults sNoName (by decide) (by decide)

/-- C5: when the process is still alive as the elapsed time exceeds the
120-second timeout, run_agent terminates it, waits the 5-second grace
period, kills it only if it is still alive, removes the handle from the
live-process set, logs the timeout, and returns None — so the agent is
omitted from the report. -/
theorem C5_timeout_escalation (a : Agent) (param : Option String) (env : RunEnv)
    (sc : String) (hsc : a.script = some sc)
    (hd : env.dirExists = true) (hs : env.spawnOk = true)
    (hp : pollLoop env.ticks = some LoopExit.timedOut) :
    runActs a param env = some (Act.addProc :: termActs env.graceOk ++ [Act.removeProc]) ∧
    (env.graceOk = false → runActs a param env =
      some [Act.addProc, Act.terminate, Act.waitGrace 5, Act.kill, Act.removeProc]) ∧
    runResult a param env = some none ∧
    runLogs a param env = some [Log.errTimeout] ∧
    (∀ agents results, EligNodup agents → a ∈ agents → eligible a = true →
      results a = none → ∀ v, (agentKey a, v) ∉ mainReport agents results) := by
  refine ⟨?_, ?_, ?_, ?_, ?_⟩
  · simp [runActs, run_agent, hsc, hd, hs, hp]
  · intro hg
    simp [runActs, run_agent, hsc, hd, hs, hp, termActs, hg]
  · simp [runResult, run_agent, hsc, hd, hs, hp]
  · simp [runLogs, run_agent, hsc, hd, hs, hp]
  · intro agents results hnd ha hel hres v
    exact mainReport_not_mem agents results hnd ha hel hres v

/-- Witness for C5 at a concrete timed-out run. -/
theorem C5_witness :
    runActs sAgent (some "data") sEnvTimeout =
      some (Act.addProc :: termActs sEnvTimeout.graceOk ++ [Act.removeProc]) ∧
    runResult sAgent (some "data") sEnvTimeout = some none := by
  have h := C5_timeout_escalation sAgent (some "data") sEnvTimeout
    "python run.py" (by decide) (by decide) (by decide) (by decide)
  exact ⟨h.1, h.2.2.1⟩

/-- An agent record that declares no canonical output name. -/
def sNoOutput : Agent := { sAgent with output := none }

/-- C6: for a run whose command exits 0 and whose declared output file
exists, run_agent creates the output directory, copies the file to
outputDir/canonicalOutputName overwriting any prior file there, the
destination bytes equal the source bytes, run_agent returns that
destination path, and the report then maps the agent name to it. -/
theorem C6_success_collation (a : Agent) (param : Option String) (env : RunEnv)
    (sc so outName : String) (bytes : Bytes) (hel : eligible a = true)
    (hsc : a.script = some sc)
    (hd : env.dirExists = true) (hs : env.spawnOk = true)
    (hp : pollLoop env.ticks = some (LoopExit.exited 0))
    (hc : env.commExc = false) (hcx : env.collateExc = false)
    (hso : a.scriptOutput = some so) (hsoNe : so ≠ "")
    (hout : a.output = some outName) (houtNe : outName ≠ "")
    (hsrc : env.fs.files (pathJoin (abspath env.cwdAbs (a.path.getD "")) so) = some bytes) :
    ∃ out, run_agent a param env = some (PyRet.ret out) ∧
      out.result = some (pathJoin (outputDirFor env.deepParent) outName) ∧
      out.fs.dirs (outputDirFor env.deepParent) = true ∧
      out.fs.files (pathJoin (outputDirFor env.deepParent) outName) = some bytes ∧
      (∀ agents results, EligNodup agents → a ∈ agents → results a = out.result →
        (agentKey a, pathJoin (outputDirFor env.deepParent) outName)
          ∈ mainReport agents results) := by
  have hsf : strFalsy (some so) = false := by
    simpa [strFalsy] using hsoNe
  have hof : strFalsy (some outName) = false := by
    simpa [strFalsy] using houtNe
  have hsrc2 : ((env.fs.mkdirs (outputDirFor env.deepParent)).files
      (pathJoin (abspath env.cwdAbs (a.path.getD "")) so)).isSome = true := by
    have hfiles : (env.fs.mkdirs (outputDirFor env.deepParent)).files = env.fs.files := rfl
    rw [hfiles, hsrc]
    rfl
  have hrun : run_agent a param env =
      some (PyRet.ret
        { result := some (pathJoin (outputDirFor env.deepParent) outName),
          acts := [Act.addProc, Act.removeProc,
            Act.makedirs (outputDirFor env.deepParent),
            Act.copy (pathJoin (abspath env.cwdAbs (a.path.getD "")) so)
              (pathJoin (outputDirFor env.deepParent) outName)],
          logs := [Log.completed, Log.copied],
          fs := (env.fs.mkdirs (outputDirFor env.deepParent)).copy2
            (pathJoin (abspath env.cwdAbs (a.path.getD "")) so)
            (pathJoin (outputDirFor env.deepParent) outName) }) := by
    simp [run_agent, hsc, hd, hs, hp, hc, hcx, hsf, hof, hso, hout, hsrc2]
  refine ⟨_, hrun, rfl, ?_, ?_, ?_⟩
  · simp [FS.copy2, FS.mkdirs]
  · have hfiles : (env.fs.mkdirs (outputDirFor env.deepParent)).files = env.fs.files := rfl
    simp [FS.copy2, hfiles, hsrc]
  · intro agents results hnd ha hres
    exact (mainReport_mem_iff agents results hnd _ _).mpr ⟨a, ha, hel, rfl, hres⟩

/-- Witness for C6 at the concrete sample run. -/
theorem C6_witness :
    ∃ out, run_agent sAgent (some "data") sEnvOk = some (PyRet.ret out) ∧
      out.result = some (pathJoin (outputDirFor sEnvOk.deepParent) "map.json") ∧
      out.fs.dirs (outputDirFor sEnvOk.deepParent) = true ∧
      out.fs.files (pathJoin (outputDirFor sEnvOk.deepParent) "map.json") = some [7, 8] ∧
      (∀ agents results, EligNodup agents → sAgent ∈ agents →
        results sAgent = out.result →
        (agentKey sAgent, pathJoin (outputDirFor sEnvOk.deepParent) "map.json")
          ∈ mainReport agents results) :=
  C6_success_collation sAgent (some "data") sEnvOk "python run.py" "res.json"
    "map.json" [7, 8] (by decide) (by decide) (by decide) (by decide) (by decide)
    (by decide) (by decide) (by decide) (by decide) (by decide) (by decide)
    (by decide)

/-- C7: in a name-unique configuration the final report has an entry for an
eligible agent exactly when its run returned a value; every entry comes
from such a run (no null or empty placeholders); run_agent returns a value
only on the zero-exit path after actually copying the artifact; and
stopped, timed-out, raised, or non-zero-exit runs all return None, so those
agents are omitted. -/
theorem C7_report_membership (agents : List Agent) (results : Agent → Option String)
    (hnd : EligNodup agents) :
    (∀ a, a ∈ agents → eligible a = true →
      ((∃ v, (agentKey a, v) ∈ mainReport agents results) ↔ ∃ v, results a = some v)) ∧
    (∀ n v, (n, v) ∈ mainReport agents results →
      ∃ b, b ∈ agents ∧ eligible b = true ∧ agentKey b = n ∧ results b = some v) ∧
    (∀ (a : Agent) (param : Option String) (env : RunEnv) (v : String),
      runResult a param env = some (some v) →
      pollLoop env.ticks = some (LoopExit.exited 0) ∧
      ∃ acts src, runActs a param env = some acts ∧ Act.copy src v ∈ acts) ∧
    (∀ (a : Agent) (param : Option String) (env : RunEnv) (sc : String),
      a.script = some sc →
      env.dirExists = true → env.spawnOk = true →
      (pollLoop env.ticks = some LoopExit.stopped ∨
       pollLoop env.ticks = some LoopExit.timedOut ∨
       pollLoop env.ticks = some LoopExit.raised ∨
       (∃ c, pollLoop env.ticks = some (LoopExit.exited c) ∧ c ≠ 0)) →
      runResult a param env = some none) := by
  refine ⟨?_, ?_, ?_, ?_⟩
  · intro a ha hel
    constructor
    · rintro ⟨v, hm⟩
      rcases (mainReport_mem_iff agents results hnd _ _).mp hm with
        ⟨b, hb, heb, hk, hres⟩
      have hab : b = a := eligNodup_inj agents hnd hb heb ha hel hk
      exact ⟨v, hab ▸ hres⟩
    · rintro ⟨v, hres⟩
      exact ⟨v, (mainReport_mem_iff agents results hnd _ _).mpr ⟨a, ha, hel, rfl, hres⟩⟩
  · intro n v hm
    rcases (mainReport_mem_iff agents results hnd n v).mp hm with
      ⟨b, hb, heb, hk, hres⟩
    exact ⟨b, hb, heb, hk, hres⟩
  · intro a param env v hv
    rcases runResult_eq_some hv with ⟨out, hout, hres⟩
    rcases run_agent_result_some a param env out v hout hres with
      ⟨_, _, hp0, _, _, _, _, _, _, hcopy⟩
    exact ⟨hp0, out.acts, _, by simp [runActs, hout], hcopy⟩
  · intro a param env sc hsc hd hs hcase
    rcases hcase with hp | hp | hp | ⟨c, hp, hcne⟩
    · simp [runResult, run_agent, hsc, hd, hs, hp]
    · simp [runResult, run_agent, hsc, hd, hs, hp]
    · simp [runResult, run_agent, hsc, hd, hs, hp]
    · cases hcomm : env.commExc
      · simp [runResult, run_agent, hsc, hd, hs, hp, hcomm, hcne]
      · simp [runResult, run_agent, hsc, hd, hs, hp, hcomm]

/-- Witness for C7: the sample success run appears in the report, and the
sample timed-out run returns None. -/
theorem C7_witness :
    (∃ v, (agentKey sAgent, v) ∈ mainReport [sAgent] sResults) ∧
    runResult sAgent (some "data") sEnvTimeout = some none := by
  have h := C7_report_membership [sAgent] sResults (by decide)
  refine ⟨(h.1 sAgent (by decide) (by decide)).mpr ⟨"output/map.json", by decide⟩, ?_⟩
  exact h.2.2.2 sAgent (some "data") sEnvTimeout "python run.py" (by decide)
    (by decide) (by decide) (Or.inr (Or.inl (by decide)))

/-- C8 counterexample: an eligible agent record lacking the script key
refutes the claim.  Its run_agent call raises KeyError at the
agent['script'] subscript (line 96, before the try), the stored future
re-raises it at futures[name].result() (line 247), main's handler catches
only KeyboardInterrupt (line 256), and report.json is never written — one
agent's failure aborts the writing of the final report and is not captured
into that agent's result.  Without that record, the same run writes the
report. -/
theorem C8_counterexample :
    eligible sNoScript = true ∧
    run_agent sNoScript (some "data") sEnvOk = some PyRet.raised ∧
    mainRun [sAgent, sNoScript] sResults = MainOutcome.aborted ∧
    mainRun [sAgent] sResults =
      MainOutcome.wrote [("alpha", "output/map.json")] := by
  refine ⟨?_, ?_, ?_, ?_⟩ <;> rfl

/-- C8 (amended): provided every eligible agent record has a script key, a
failure in one agent's run never aborts the other agents or the writing of
the final report — run_agent returns a captured result on every decided
environment, the report is written, and the entries of every other agent
are unchanged when one agent's result is replaced by a failure.  But when
some eligible record lacks the script key, its KeyError is re-raised by
futures[name].result() past main's KeyboardInterrupt-only handler and the
run aborts with no report written. -/
theorem C8_failure_containment :
    (∀ (a : Agent) (param : Option String) (env : RunEnv) (sc : String),
      a.script = some sc →
      (env.dirExists = false ∨ env.spawnOk = false ∨
        (pollLoop env.ticks).isSome = true) →
      ∃ out, run_agent a param env = some (PyRet.ret out)) ∧
    (∀ (agents : List Agent) (results : Agent → Option String),
      (∀ a ∈ agents, eligible a = true → runAgentKeyError a = false) →
      mainRun agents results = MainOutcome.wrote (mainReport agents results)) ∧
    (∀ (agents : List Agent) (results results2 : Agent → Option String) (k : String),
      EligNodup agents →
      (∀ b ∈ agents, agentKey b ≠ k → results b = results2 b) →
      ∀ n v, n ≠ k →
        ((n, v) ∈ mainReport agents results ↔ (n, v) ∈ mainReport agents results2)) ∧
    (∀ (agents : List Agent) (results : Agent → Option String) (a : Agent),
      EligNodup agents → a ∈ agents → eligible a = true → a.script = none →
      mainRun agents results = MainOutcome.aborted) := by
  refine ⟨?_, ?_, ?_, ?_⟩
  · intro a param env sc hsc hcase
    cases hra : run_agent a param env with
    | some pr =>
      cases pr with
      | raised =>
        rw [run_agent_raised a param env hra] at hsc
        exact Option.noConfusion hsc
      | ret out => exact ⟨out, rfl⟩
    | none =>
      rcases run_agent_none a param env hra with ⟨_, hd, hs, hp⟩
      rcases hcase with h1 | h1 | h1
      · rw [hd] at h1
        exact Bool.noConfusion h1
      · rw [hs] at h1
        exact Bool.noConfusion h1
      · rw [hp] at h1
        exact Bool.noConfusion h1
  · intro agents results hkeys
    unfold mainRun mainReport
    apply collectOrAbort_eq
    intro p hp
    rcases buildFutures_mem agents [] p hp with hnil | ⟨hmem, hel, _⟩
    · exact absurd hnil (List.not_mem_nil p)
    · exact hkeys p.2 hmem hel
  · intro agents results results2 k hnd hagree n v hn
    constructor
    · intro hm
      rcases (mainReport_mem_iff agents results hnd n v).mp hm with
        ⟨b, hb, heb, hk, hres⟩
      refine (mainReport_mem_iff agents results2 hnd n v).mpr
        ⟨b, hb, heb, hk, ?_⟩
      rw [← hagree b hb (hk ▸ hn), hres]
    · intro hm
      rcases (mainReport_mem_iff agents results2 hnd n v).mp hm with
        ⟨b, hb, heb, hk, hres⟩
      refine (mainReport_mem_iff agents results hnd n v).mpr
        ⟨b, hb, heb, hk, ?_⟩
      rw [hagree b hb (hk ▸ hn), hres]
  · intro agents results a hnd ha hela hscript
    unfold mainRun
    exact collectOrAbort_aborts agents (buildFutures agents []) results [] a
      (mainFut_lookup agents hnd) ha hela hscript

/-- Witness for C8's amended theorem: a concrete run returns a value, a
script-complete config writes its report, an unrelated failure leaves a
concrete entry unchanged, and a config with a scriptless agent aborts. -/
theorem C8_witness :
    (∃ out, run_agent sAgent (some "data") sEnvOk = some (PyRet.ret out)) ∧
    mainRun [sAgent] sResults = MainOutcome.wrote (mainReport [sAgent] sResults) ∧
    (("alpha", "output/map.json") ∈ mainReport [sAgent] sResults ↔
      ("alpha", "output/map.json") ∈ mainReport [sAgent]
        (fun b => if agentKey b = "zeta" then none else sResults b)) ∧
    mainRun [sAgent, sNoScript] sResults = MainOutcome.aborted := by
  have h := C8_failure_containment
  refine ⟨h.1 sAgent (some "data") sEnvOk "python run.py" (by decide)
      (Or.inr (Or.inr (by decide))),
    h.2.1 [sAgent] sResults (by decide),
    h.2.2.1 [sAgent] sResults
      (fun b => if agentKey b = "zeta" then none else sResults b) "zeta"
      (by decide) (fun b hb hk => by simp [hk]) "alpha" "output/map.json" (by decide),
    h.2.2.2 [sAgent, sNoScript] sResults sNoScript (by decide) (by decide)
      (by decide) (by decide)⟩

/-- C9: when the command exits 0 but the record lacks a script-output key
or lacks an output key, run_agent prints a warning (and no error), returns
None, and the agent is omitted from the report. -/
theorem C9_missing_output_keys (a : Agent) (param : Option String) (env : RunEnv)
    (sc : String) (hsc : a.script = some sc)
    (hd : env.dirExists = true) (hs : env.spawnOk = true)
    (hp : pollLoop env.ticks = some (LoopExit.exited 0)) (hc : env.commExc = false)
    (hmiss : a.scriptOutput = none ∨ a.output = none) :
    runResult a param env = some none ∧
    (∃ logs, runLogs a param env = some logs ∧
      (Log.warnNoScriptOutput ∈ logs ∨ Log.warnNoOutput ∈ logs) ∧
      Log.errExc ∉ logs) ∧
    (∀ agents results, EligNodup agents → a ∈ agents → eligible a = true →
      results a = none → ∀ v, (agentKey a, v) ∉ mainReport agents results) := by
  have hcases : strFalsy a.scriptOutput = true ∨
      (strFalsy a.scriptOutput = false ∧ strFalsy a.output = true) := by
    rcases hmiss with hm | hm
    · exact Or.inl (by rw [hm]; rfl)
    · cases hso : strFalsy a.scriptOutput
      · exact Or.inr ⟨rfl, by rw [hm]; rfl⟩
      · exact Or.inl rfl
  refine ⟨?_, ?_, ?_⟩
  · rcases hcases with h1 | ⟨h1, h2⟩
    · simp [runResult, run_agent, hsc, hd, hs, hp, hc, h1]
    · simp [runResult, run_agent, hsc, hd, hs, hp, hc, h1, h2]
  · rcases hcases with h1 | ⟨h1, h2⟩
    · exact ⟨[Log.completed, Log.warnNoScriptOutput],
        by simp [runLogs, run_agent, hsc, hd, hs, hp, hc, h1], Or.inl (by simp), by simp⟩
    · exact ⟨[Log.completed, Log.warnNoOutput],
        by simp [runLogs, run_agent, hsc, hd, hs, hp, hc, h1, h2], Or.inr (by simp), by simp⟩
  · intro agents results hnd ha hel hres v
    exact mainReport_not_mem agents results hnd ha hel hres v

/-- Witness for C9 with an agent lacking the output key. -/
theorem C9_witness :
    runResult sNoOutput (some "data") sEnvOk = some none ∧
    (∃ logs, runLogs sNoOutput (some "data") sEnvOk = some logs ∧
      (Log.warnNoScriptOutput ∈ logs ∨ Log.warnNoOutput ∈ logs) ∧
      Log.errExc ∉ logs) := by
  have h := C9_missing_output_keys sNoOutput (some "data") sEnvOk "python run.py"
    (by decide) (by decide) (by decide) (by decide) (by decide) (Or.inr (by decide))
  exact ⟨h.1, h.2.1⟩

/-- C10: in the standard layout, when the output directory exists and is
non-empty as main starts, the archiving step performed before any task is
submitted moves the whole directory to the timestamped archive name, so
the agents' collation phase starts with no output directory and recreates
it empty. -/
theorem C10_archive_prior_output (e : ArchiveEnv) (l : List String)
    (hdeep : e.deep = false) (hl : e.listing "output" = some l) (hne : l ≠ []) :
    (archiveStep e).listing "output" = none ∧
    (archiveStep e).listing (archiveName e.timestamp) = some l := by
  have hq : l.isEmpty = false := by
    cases l
    · exact absurd rfl hne
    · rfl
  constructor
  · simp [archiveStep, hdeep, hl, hq]
  · simp [archiveStep, hdeep, hl, hq, archiveName_ne_output e.timestamp]

/-- Witness for C10 at a concrete archive environment. -/
theorem C10_witness :
    (archiveStep sArchiveEnv).listing "output" = none ∧
    (archiveStep sArchiveEnv).listing (archiveName sArchiveEnv.timestamp) =
      some ["old.json"] :=
  C10_archive_prior_output sArchiveEnv ["old.json"] (by decide) (by decide)
    (by decide)

end Mapper
